import Mathlib

/-!
Verification of the claude-orchestrator core against its specification.

The Python sources under `src/core/` are shallowly embedded as executable
Lean definitions: dictionaries become association lists, filesystem trees
become association lists from relative path to file content, and the
external merge sub-agent / subprocess environment is abstracted as
function parameters ranging over all possible behaviours.
-/

namespace Spec2Proof

/-- Lifecycle state of a task (`TaskStatus` in `task_graph_engine.py`). -/
inductive TaskStatus where
  | pending
  | in_progress
  | completed
  | failed
deriving DecidableEq, Repr

/-- A task record (`Task` dataclass in `task_graph_engine.py`). -/
structure Task where
  id : String
  name : String
  dependencies : List String
  status : TaskStatus
  phase_id : Option String
deriving DecidableEq, Repr

/-- The engine state: the task dictionary (as an insertion-ordered
association list, as a Python `dict` is) and the phase-dependency
dictionary `phase_id -> depends_on_phase`. -/
structure TaskGraphEngine where
  tasks : List Task
  phase_dependencies : List (String × String)
deriving Repr

/-- Dictionary lookup `self.tasks[i]` / `self.tasks.get(i)`. -/
def findTask (e : TaskGraphEngine) (i : String) : Option Task :=
  e.tasks.find? (fun t => t.id == i)

/-- Truthiness of `task.phase_id` in Python: `None` and the empty string
are falsy. -/
def phaseTruthy : Option String → Bool
  | none => false
  | some s => !(s == "")

/-- Embedding of `TaskGraphEngine._is_phase_ready`: a phase with no recorded
predecessor is ready; otherwise it is ready when no task of the
predecessor phase has a status other than COMPLETED. -/
def is_phase_ready (e : TaskGraphEngine) (phase_id : String) : Bool :=
  match e.phase_dependencies.lookup phase_id with
  | none => true
  | some depends_on =>
      e.tasks.all (fun t => !(t.phase_id == some depends_on && !(t.status == .completed)))

/-- One dependency test of `TaskGraphEngine.get_executable_tasks`: the
generator `... for dep_id in task.dependencies if dep_id in self.tasks`
silently skips dependency ids that are not in the task dictionary. -/
def depCompletedOrMissing (e : TaskGraphEngine) (dep_id : String) : Bool :=
  match findTask e dep_id with
  | none => true
  | some t => t.status == .completed

/-- Embedding of `TaskGraphEngine.get_executable_tasks`. -/
def get_executable_tasks (e : TaskGraphEngine) : List Task :=
  e.tasks.filter (fun task =>
    task.status == .pending &&
    !(phaseTruthy task.phase_id && !(is_phase_ready e (task.phase_id.getD ""))) &&
    task.dependencies.all (fun d => depCompletedOrMissing e d))

/-- Embedding of `TaskGraphEngine.update_task_status`. -/
def update_task_status (e : TaskGraphEngine) (task_id : String) (status : TaskStatus) :
    Except String TaskGraphEngine :=
  if e.tasks.any (fun t => t.id == task_id) then
    .ok { e with tasks :=
      e.tasks.map (fun t => if t.id == task_id then { t with status := status } else t) }
  else
    .error ("Task " ++ task_id ++ " not found")

/-- Embedding of `TaskGraphEngine.is_all_tasks_completed`. -/
def is_all_tasks_completed (e : TaskGraphEngine) : Bool :=
  e.tasks.all (fun t => t.status == .completed)

/-- The counters returned by `TaskGraphEngine.get_progress_summary`. -/
structure ProgressSummary where
  total : Nat
  pending : Nat
  in_progress : Nat
  completed : Nat
  failed : Nat
deriving DecidableEq, Repr

/-- Embedding of `TaskGraphEngine.get_progress_summary`: one pass over the task
dictionary incrementing exactly the counter of each task's status. -/
def get_progress_summary (e : TaskGraphEngine) : ProgressSummary :=
  { total := e.tasks.length
    pending := e.tasks.countP (fun t => t.status == .pending)
    in_progress := e.tasks.countP (fun t => t.status == .in_progress)
    completed := e.tasks.countP (fun t => t.status == .completed)
    failed := e.tasks.countP (fun t => t.status == .failed) }

lemma countP_status_partition (l : List Task) :
    l.countP (fun t => t.status == .pending) + l.countP (fun t => t.status == .in_progress) +
      l.countP (fun t => t.status == .completed) + l.countP (fun t => t.status == .failed) =
      l.length := by
  induction l with
  | nil => simp
  | cons t l ih =>
      cases h : t.status <;>
        simp [List.countP_cons, h] <;> omega

/-- C9: in every engine state the progress counters partition the tasks,
so pending + in_progress + completed + failed = total, and
`is_all_tasks_completed` holds exactly when the completed counter equals
the total.  Proved for all states, which includes all reachable ones. -/
theorem progress_summary_partition (e : TaskGraphEngine) :
    (get_progress_summary e).pending + (get_progress_summary e).in_progress +
        (get_progress_summary e).completed + (get_progress_summary e).failed =
      (get_progress_summary e).total ∧
    (is_all_tasks_completed e = true ↔
      (get_progress_summary e).completed = (get_progress_summary e).total) := by
  constructor
  · exact countP_status_partition e.tasks
  · simp only [get_progress_summary, is_all_tasks_completed]
    rw [List.all_eq_true, List.countP_eq_length]

/-- The phase clause of the frontier characterisation: the owning phase,
when present, has either no recorded predecessor phase or every task of
the predecessor phase is COMPLETED. -/
def PhasePredOk (e : TaskGraphEngine) (T : Task) : Prop :=
  ∀ pid, T.phase_id = some pid →
    e.phase_dependencies.lookup pid = none ∨
    ∃ pred, e.phase_dependencies.lookup pid = some pred ∧
      ∀ t ∈ e.tasks, t.phase_id = some pred → t.status = .completed

/-- The membership condition claimed for the frontier query as the spec
states it: every listed dependency must exist in the task set and be
COMPLETED. -/
def SpecExecutableCond (e : TaskGraphEngine) (T : Task) : Prop :=
  T.status = .pending ∧
  (∀ d ∈ T.dependencies, ∃ dt, findTask e d = some dt ∧ dt.status = .completed) ∧
  PhasePredOk e T

lemma is_phase_ready_iff (e : TaskGraphEngine) (pid : String) :
    is_phase_ready e pid = true ↔
      (e.phase_dependencies.lookup pid = none ∨
        ∃ pred, e.phase_dependencies.lookup pid = some pred ∧
          ∀ t ∈ e.tasks, t.phase_id = some pred → t.status = .completed) := by
  unfold is_phase_ready
  cases h : e.phase_dependencies.lookup pid with
  | none => simp
  | some pred =>
      simp only [List.all_eq_true]
      constructor
      · intro hall
        right
        refine ⟨pred, rfl, ?_⟩
        intro t ht hpt
        have := hall t ht
        simp [hpt] at this
        exact this
      · rintro (hc | ⟨pred', hp', hall⟩)
        · simp at hc
        · intro t ht
          injection hp' with hpp
          subst hpp
          by_cases hc : t.phase_id = some pred
          · have := hall t ht hc
            simp [hc, this]
          · simp [hc]

/-- C1 (amended): membership characterisation of
`get_executable_tasks`.  A dependency id absent from the task set is
ignored; only dependencies that exist must be COMPLETED.  The side
condition rules out the degenerate empty-string phase id, which a WBS
load never produces. -/
theorem get_executable_tasks_spec (e : TaskGraphEngine)
    (hphase : ∀ t ∈ e.tasks, t.phase_id ≠ some "") (T : Task) :
    T ∈ get_executable_tasks e ↔
      T ∈ e.tasks ∧ T.status = .pending ∧
      (∀ d ∈ T.dependencies, ∀ dt, findTask e d = some dt → dt.status = .completed) ∧
      PhasePredOk e T := by
  unfold get_executable_tasks
  rw [List.mem_filter]
  constructor
  · rintro ⟨hmem, hcond⟩
    rw [Bool.and_eq_true, Bool.and_eq_true] at hcond
    obtain ⟨⟨hpend, hph⟩, hdeps⟩ := hcond
    refine ⟨hmem, by simpa using hpend, ?_, ?_⟩
    · intro d hd dt hdt
      rw [List.all_eq_true] at hdeps
      have := hdeps d hd
      unfold depCompletedOrMissing at this
      rw [hdt] at this
      simpa using this
    · intro pid hpid
      have htr : phaseTruthy T.phase_id = true := by
        unfold phaseTruthy
        rw [hpid]
        simp only [Bool.not_eq_true', beq_eq_false_iff_ne, ne_eq]
        intro hc
        exact hphase T hmem (by rw [hpid, hc])
      rw [Bool.not_eq_true'] at hph
      cases hready : is_phase_ready e (T.phase_id.getD "") with
      | false =>
          rw [htr, hready] at hph
          simp at hph
      | true =>
          rw [hpid] at hready
          simpa using (is_phase_ready_iff e pid).mp hready
  · rintro ⟨hmem, hpend, hdeps, hpha⟩
    refine ⟨hmem, ?_⟩
    rw [Bool.and_eq_true, Bool.and_eq_true]
    refine ⟨⟨by simpa using hpend, ?_⟩, ?_⟩
    · rw [Bool.not_eq_true']
      cases hpid : T.phase_id with
      | none => simp [phaseTruthy]
      | some pid =>
          have hready : is_phase_ready e pid = true :=
            (is_phase_ready_iff e pid).mpr (by simpa using hpha pid hpid)
          simp [hready]
    · rw [List.all_eq_true]
      intro d hd
      unfold depCompletedOrMissing
      cases hdt : findTask e d with
      | none => rfl
      | some dt => simpa using hdeps d hd dt hdt

/-- A one-task engine whose sole task lists a dependency id that does not
exist in the task set. -/
def danglingDepTask : Task :=
  { id := "t1", name := "t1", dependencies := ["ghost"], status := .pending,
    phase_id := some "p1" }

/-- Engine used to refute C1 as stated. -/
def danglingDepEngine : TaskGraphEngine :=
  { tasks := [danglingDepTask], phase_dependencies := [] }

/-- C1 counterexample: `get_executable_tasks` returns a PENDING task one
of whose listed dependencies does not exist in the task set, so the
claimed frontier characterisation (which requires every listed dependency
to exist and be COMPLETED) is false on the code. -/
theorem get_executable_tasks_claim_counterexample :
    danglingDepTask ∈ get_executable_tasks danglingDepEngine ∧
    ¬ SpecExecutableCond danglingDepEngine danglingDepTask := by
  constructor
  · simp [get_executable_tasks, danglingDepEngine, danglingDepTask, depCompletedOrMissing,
      findTask, phaseTruthy, is_phase_ready]
  · intro h
    obtain ⟨-, hdeps, -⟩ := h
    obtain ⟨dt, hdt, -⟩ := hdeps "ghost" (by simp [danglingDepTask])
    simp [findTask, danglingDepEngine, danglingDepTask] at hdt

/-- A concrete engine with a completed dependency, used to witness the
amended frontier theorem. -/
def frontierWitnessEngine : TaskGraphEngine :=
  { tasks :=
      [{ id := "a", name := "a", dependencies := [], status := .completed,
         phase_id := some "p1" },
       { id := "b", name := "b", dependencies := ["a"], status := .pending,
         phase_id := some "p1" }],
    phase_dependencies := [] }

/-- Witness for the amended C1 theorem at a concrete engine. -/
theorem get_executable_tasks_spec_witness :
    { id := "b", name := "b", dependencies := ["a"], status := TaskStatus.pending,
      phase_id := some "p1" } ∈ get_executable_tasks frontierWitnessEngine := by
  apply (get_executable_tasks_spec frontierWitnessEngine
    (by intro t ht; fin_cases ht <;> simp [frontierWitnessEngine])
    { id := "b", name := "b", dependencies := ["a"], status := TaskStatus.pending,
      phase_id := some "p1" }).mpr
  refine ⟨by simp [frontierWitnessEngine], rfl, ?_, ?_⟩
  · intro d hd dt hdt
    simp at hd
    subst hd
    simp [findTask, frontierWitnessEngine] at hdt
    rw [← hdt]
  · intro pid hpid
    left
    simp [frontierWitnessEngine]

/-! Workspace and snapshot model (`artifact_manager.py`).

A directory tree is an association list from relative path to file
content; a snapshot maps relative path to content hash.  The metadata
fields `size` and `mtime` of `FileMetadata` are never consulted by the
diff or integration logic and are omitted; the hash function is an
arbitrary parameter `h`, matching the truncated SHA-256 of the source. -/

/-- A directory tree: relative path to file content. -/
abbrev FileTree := List (String × String)

/-- A snapshot: relative path to content hash. -/
abbrev Snapshot := List (String × String)

/-- Substring test (Python `pattern in str(file_path)`). -/
def strContains (s pat : String) : Bool :=
  decide (pat.toList <:+: s.toList)

/-- The universal excluded-path patterns of `_create_snapshot`. -/
def isExcluded (path : String) : Bool :=
  strContains path ".git" || strContains path "__pycache__" || strContains path ".claude"

/-- Embedding of `ArtifactManager._create_snapshot` over a tree: hash every
non-excluded file with the hash function `h`. -/
def createSnapshot (h : String → String) (dir : FileTree) : Snapshot :=
  (dir.filter (fun pc => !(isExcluded pc.1))).map (fun pc => (pc.1, h pc.2))

/-- The three change classes returned by `_detect_changes`. -/
structure Changes where
  new : List String
  deleted : List String
  modified : List String
deriving DecidableEq, Repr

/-- Keys of an association list. -/
def keysOf (m : List (String × String)) : List String := m.map Prod.fst

/-- Embedding of `ArtifactManager._detect_changes`: classify paths by set membership
and hash comparison. -/
def detect_changes (base current : Snapshot) : Changes :=
  { new := (keysOf current).filter (fun p => !((keysOf base).contains p))
    deleted := (keysOf base).filter (fun p => !((keysOf current).contains p))
    modified := ((keysOf base).filter (fun p => (keysOf current).contains p)).filter
      (fun p => !(base.lookup p == current.lookup p)) }

lemma lookup_isSome_iff_mem_keys (m : List (String × String)) (p : String) :
    (m.lookup p).isSome = true ↔ p ∈ keysOf m := by
  induction m with
  | nil => simp [keysOf]
  | cons kv rest ih =>
      obtain ⟨k, v⟩ := kv
      by_cases h : p = k
      · subst h
        simp [List.lookup, keysOf]
      · have hb : (p == k) = false := by simpa using h
        simp only [keysOf, List.map_cons, List.mem_cons]
        rw [List.lookup, hb]
        simp only [keysOf] at ih
        simp [h, ih]

/-- C7: the diff classifies each path into exactly one class — `new` iff
present only in `current`, `deleted` iff present only in `base`,
`modified` iff present in both with differing hashes; a path present in
both with equal hashes is in no class; and the diff of a snapshot with
itself is empty in all three classes. -/
theorem detect_changes_spec (base current : Snapshot) :
    (∀ p, p ∈ (detect_changes base current).new ↔
      p ∈ keysOf current ∧ p ∉ keysOf base) ∧
    (∀ p, p ∈ (detect_changes base current).deleted ↔
      p ∈ keysOf base ∧ p ∉ keysOf current) ∧
    (∀ p, p ∈ (detect_changes base current).modified ↔
      ∃ hb hc, base.lookup p = some hb ∧ current.lookup p = some hc ∧ hb ≠ hc) ∧
    (∀ p hv, base.lookup p = some hv → current.lookup p = some hv →
      p ∉ (detect_changes base current).new ∧
      p ∉ (detect_changes base current).deleted ∧
      p ∉ (detect_changes base current).modified) ∧
    detect_changes base base = { new := [], deleted := [], modified := [] } := by
  refine ⟨?_, ?_, ?_, ?_, ?_⟩
  · intro p
    simp [detect_changes, List.mem_filter]
  · intro p
    simp [detect_changes, List.mem_filter]
  · intro p
    simp only [detect_changes, List.mem_filter, List.elem_iff, decide_eq_true_eq,
      Bool.not_eq_true', beq_eq_false_iff_ne, ne_eq, and_assoc]
    constructor
    · rintro ⟨hpb, hpc, hne⟩
      obtain ⟨hb, hhb⟩ := Option.isSome_iff_exists.mp ((lookup_isSome_iff_mem_keys base p).mpr hpb)
      obtain ⟨hc, hhc⟩ := Option.isSome_iff_exists.mp ((lookup_isSome_iff_mem_keys current p).mpr hpc)
      refine ⟨hb, hc, hhb, hhc, ?_⟩
      intro he
      apply hne
      rw [hhb, hhc, he]
    · rintro ⟨hb, hc, hhb, hhc, hne⟩
      refine ⟨?_, ?_, ?_⟩
      · exact (lookup_isSome_iff_mem_keys base p).mp (by simp [hhb])
      · exact (lookup_isSome_iff_mem_keys current p).mp (by simp [hhc])
      · rw [hhb, hhc]
        intro he
        exact hne (by injection he)
  · intro p hv hb hc
    refine ⟨?_, ?_, ?_⟩
    · intro hmem
      simp only [detect_changes] at hmem
      rw [List.mem_filter] at hmem
      have hpb : p ∈ keysOf base := (lookup_isSome_iff_mem_keys base p).mp (by simp [hb])
      simp [List.elem_iff, hpb] at hmem
    · intro hmem
      simp only [detect_changes] at hmem
      rw [List.mem_filter] at hmem
      have hpc : p ∈ keysOf current := (lookup_isSome_iff_mem_keys current p).mp (by simp [hc])
      simp [List.elem_iff, hpc] at hmem
    · intro hmem
      simp only [detect_changes] at hmem
      rw [List.mem_filter] at hmem
      obtain ⟨-, hq⟩ := hmem
      rw [hb, hc] at hq
      simp at hq
  · simp only [detect_changes, Changes.mk.injEq]
    refine ⟨?_, ?_, ?_⟩
    · apply List.filter_eq_nil_iff.mpr
      intro p hp
      simp [List.elem_iff, hp]
    · apply List.filter_eq_nil_iff.mpr
      intro p hp
      simp [List.elem_iff, hp]
    · apply List.filter_eq_nil_iff.mpr
      intro p _
      simp

/-- Witness for the C7 theorem: its equal-hash clause applied at
concrete snapshots sharing the path "a" with the same hash. -/
theorem detect_changes_spec_witness :
    "a" ∉ (detect_changes [("a", "h1")] [("a", "h1"), ("b", "h2")]).new ∧
    "a" ∉ (detect_changes [("a", "h1")] [("a", "h1"), ("b", "h2")]).deleted ∧
    "a" ∉ (detect_changes [("a", "h1")] [("a", "h1"), ("b", "h2")]).modified :=
  (detect_changes_spec [("a", "h1")] [("a", "h1"), ("b", "h2")]).2.2.2.1 "a" "h1" rfl rfl

/-! Path helpers mirroring `pathlib.PurePath.name,stem,suffix` on
POSIX-style relative path strings, and the dictionary update that models
copying a file into a directory tree. -/

/-- The final path component (`Path.name`): the characters after the
last slash. -/
def pathFinalComp (p : String) : String :=
  ⟨(p.toList.reverse.takeWhile (fun c => !(c == '/'))).reverse⟩

/-- The directory part up to and including the last slash (empty when the
path has no slash), so that `pathDirPart p ++ pathFinalComp p = p`. -/
def pathDirPart (p : String) : String :=
  ⟨(p.toList.reverse.dropWhile (fun c => !(c == '/'))).reverse⟩

/-- Split a path component into stem and suffix as `pathlib` does: the
suffix starts at the last dot provided that dot is neither the first nor
the last character; otherwise the suffix is empty. -/
def stemAndSuffix (nm : String) : String × String :=
  let rs := nm.toList.reverse
  let pre := rs.takeWhile (fun c => !(c == '.'))
  match rs.dropWhile (fun c => !(c == '.')) with
  | [] => (nm, "")
  | _ :: stemRev =>
      if stemRev = [] then (nm, "")
      else if pre = [] then (nm, "")
      else (⟨stemRev.reverse⟩, ⟨'.' :: pre.reverse⟩)

/-- The versioned-sidecar path `parent/<stem>_<task_id><suffix>` that the
integration writes on conflict. -/
def versionedName (p : String) (task_id : String) : String :=
  pathDirPart p ++ (stemAndSuffix (pathFinalComp p)).1 ++ "_" ++ task_id ++
    (stemAndSuffix (pathFinalComp p)).2

lemma pathDirPart_append_final (p : String) : pathDirPart p ++ pathFinalComp p = p := by
  unfold pathDirPart pathFinalComp
  have h : (p.toList.reverse.dropWhile (fun c => !(c == '/'))).reverse ++
      (p.toList.reverse.takeWhile (fun c => !(c == '/'))).reverse = p.toList := by
    rw [← List.reverse_append, List.takeWhile_append_dropWhile, List.reverse_reverse]
  show ({ data := (p.toList.reverse.dropWhile (fun c => !(c == '/'))).reverse ++
    (p.toList.reverse.takeWhile (fun c => !(c == '/'))).reverse } : String) = p
  rw [h]
  rfl

lemma stemAndSuffix_append (nm : String) :
    (stemAndSuffix nm).1 ++ (stemAndSuffix nm).2 = nm := by
  unfold stemAndSuffix
  cases hdw : nm.toList.reverse.dropWhile (fun c => !(c == '.')) with
  | nil => simp only [hdw]; simp
  | cons c stemRev =>
      simp only [hdw]
      by_cases h1 : stemRev = []
      · rw [if_pos h1]; simp
      · rw [if_neg h1]
        by_cases h2 : nm.toList.reverse.takeWhile (fun c => !(c == '.')) = []
        · rw [if_pos h2]; simp
        · rw [if_neg h2]
          have hc : c = '.' := by
            have h3 := List.head?_dropWhile_not (fun c => !(c == '.')) nm.toList.reverse
            rw [hdw] at h3
            simp at h3
            exact h3
          subst hc
          have h : nm.toList.reverse.takeWhile (fun c => !(c == '.')) ++
              ('.' :: stemRev) = nm.toList.reverse := by
            rw [← hdw, List.takeWhile_append_dropWhile]
          have hchars : stemRev.reverse ++
              ('.' :: (nm.toList.reverse.takeWhile (fun c => !(c == '.'))).reverse) =
              nm.toList := by
            have h4 := congrArg List.reverse h
            rw [List.reverse_append, List.reverse_reverse, List.reverse_cons] at h4
            simpa using h4
          show ({ data := stemRev.reverse ++
            ('.' :: (nm.toList.reverse.takeWhile (fun c => !(c == '.'))).reverse) } : String) = nm
          rw [hchars]
          rfl

lemma versionedName_length (p task_id : String) :
    (versionedName p task_id).length = p.length + 1 + task_id.length := by
  have h1 := congrArg String.length (stemAndSuffix_append (pathFinalComp p))
  have h2 := congrArg String.length (pathDirPart_append_final p)
  have h3 : ("_" : String).length = 1 := rfl
  unfold versionedName
  simp only [String.length_append] at h1 h2 ⊢
  omega

lemma versionedName_ne (p task_id : String) : versionedName p task_id ≠ p := by
  intro h
  have := congrArg String.length h
  rw [versionedName_length] at this
  omega

/-- Dictionary/file-tree update: overwrite the entry at a key or append a
new one (Python `dict` assignment; `shutil.copy2` into a directory). -/
def setKV : List (String × String) → String → String → List (String × String)
  | [], k, v => [(k, v)]
  | kv :: rest, k, v =>
      if kv.1 == k then (k, v) :: rest else kv :: setKV rest k v

lemma lookup_cons_kv (p k v : String) (rest : List (String × String)) :
    ((k, v) :: rest).lookup p = if p == k then some v else rest.lookup p := by
  cases h : p == k <;> simp [List.lookup, h]

lemma lookup_setKV_self (m : List (String × String)) (k v : String) :
    (setKV m k v).lookup k = some v := by
  induction m with
  | nil => simp [setKV, lookup_cons_kv]
  | cons kv rest ih =>
      obtain ⟨a, b⟩ := kv
      by_cases h : (a == k) = true
      · have hred : setKV ((a, b) :: rest) k v = (k, v) :: rest := by
          simp [setKV, h]
        rw [hred, lookup_cons_kv]
        simp
      · have hred : setKV ((a, b) :: rest) k v = (a, b) :: setKV rest k v := by
          simp [setKV, h]
        rw [hred, lookup_cons_kv]
        have hka : (k == a) = false := by
          simp only [beq_eq_false_iff_ne, ne_eq]
          intro hc
          simp [hc] at h
        simp [hka, ih]

lemma lookup_setKV_other (m : List (String × String)) (k v k' : String) (h : k' ≠ k) :
    (setKV m k v).lookup k' = m.lookup k' := by
  have hk'k : (k' == k) = false := by simpa using h
  induction m with
  | nil =>
      simp [setKV, lookup_cons_kv, hk'k]
  | cons kv rest ih =>
      obtain ⟨a, b⟩ := kv
      by_cases hk : (a == k) = true
      · have hkk : a = k := by simpa using hk
        have hred : setKV ((a, b) :: rest) k v = (k, v) :: rest := by
          simp [setKV, hk]
        rw [hred, lookup_cons_kv, lookup_cons_kv]
        have h2 : (k' == a) = false := by
          rw [hkk]
          exact hk'k
        simp [hk'k, h2]
      · have hred : setKV ((a, b) :: rest) k v = (a, b) :: setKV rest k v := by
          simp [setKV, hk]
        rw [hred, lookup_cons_kv, lookup_cons_kv]
        cases hpa : (k' == a) with
        | true => simp
        | false => simp [ih]

/-- Result of a delegated merge (`ConflictResolution` dataclass in
`conflict_resolver.py`).  Paths and file contents are both modelled as
strings; in the integration model the `merged_file_path` field carries
the merged file's content, since the code immediately copies the file at
that path. -/
structure ConflictResolution where
  strategy : String
  merged_file_path : Option String := none
  message : String := ""
deriving DecidableEq, Repr

/-- Counters returned by `ArtifactManager.integrate_task_results`. -/
structure IntegrationCounts where
  new : Nat
  modified : Nat
  conflict : Nat
  deleted : Nat
deriving DecidableEq, Repr

/-- The body of the modified-files loop of
`ArtifactManager.integrate_task_results`, applied to one modified path.
The state is the shared tree plus the counters; `resolver` abstracts the
3-way merge sub-agent as an arbitrary function from the path to a
resolution. -/
def integrateModified (task_id : String) (base_snapshot shared_snapshot : Snapshot)
    (task_ws : FileTree) (resolver : Option (String → ConflictResolution))
    (state : FileTree × IntegrationCounts) (filepath : String) :
    FileTree × IntegrationCounts :=
  let shared := state.1
  let counts := state.2
  let srcContent := (task_ws.lookup filepath).getD ""
  if (shared_snapshot.lookup filepath).isSome then
    if !(base_snapshot.lookup filepath).isSome ||
        !(shared_snapshot.lookup filepath == base_snapshot.lookup filepath) then
      match resolver with
      | some resolve =>
          let resolution := resolve filepath
          if resolution.strategy == "merged" && resolution.merged_file_path.isSome then
            (setKV shared filepath (resolution.merged_file_path.getD ""),
             { counts with modified := counts.modified + 1 })
          else
            (setKV shared (versionedName filepath task_id) srcContent,
             { counts with conflict := counts.conflict + 1 })
      | none =>
          (setKV shared (versionedName filepath task_id) srcContent,
           { counts with conflict := counts.conflict + 1 })
    else
      (setKV shared filepath srcContent, { counts with modified := counts.modified + 1 })
  else
    (setKV shared filepath srcContent, { counts with new := counts.new + 1 })

/-- The per-file copy step of the new-files loop of
`integrate_task_results`. -/
def copyNewStep (task_ws : FileTree) (st : FileTree × IntegrationCounts) (p : String) :
    FileTree × IntegrationCounts :=
  (setKV st.1 p ((task_ws.lookup p).getD ""), { st.2 with new := st.2.new + 1 })

/-- Embedding of `ArtifactManager.integrate_task_results`: diff the task sandbox
against the stored base snapshot, copy new files, run the modified-files
loop, and count deleted files without acting on them. -/
def integrate_task_results (h : String → String) (task_id : String)
    (task_snapshots : List (String × Snapshot)) (shared : FileTree) (task_ws : FileTree)
    (resolver : Option (String → ConflictResolution)) : FileTree × IntegrationCounts :=
  let base_snapshot := (task_snapshots.lookup task_id).getD []
  let task_snapshot := createSnapshot h task_ws
  let shared_snapshot := createSnapshot h shared
  let changes := detect_changes base_snapshot task_snapshot
  let st1 := changes.new.foldl (copyNewStep task_ws)
    (shared, { new := 0, modified := 0, conflict := 0, deleted := 0 })
  let st2 := changes.modified.foldl
    (integrateModified task_id base_snapshot shared_snapshot task_ws resolver) st1
  (st2.1, { st2.2 with deleted := changes.deleted.length })

/-- C2: for a modified path present in the shared snapshot, when the
shared hash still equals the base hash the shared file is overwritten
with the task's copy and `modified` is incremented; when the shared hash
differs and there is no resolver or the resolution's strategy is not
"merged", the task's file goes to the versioned sidecar
`<stem>_<taskId><suffix>`, the shared file at the path is untouched, and
`conflict` is incremented. -/
theorem integrate_modified_cases (task_id : String)
    (base_snapshot shared_snapshot : Snapshot) (task_ws : FileTree)
    (resolver : Option (String → ConflictResolution))
    (shared : FileTree) (counts : IntegrationCounts) (P : String) (sh bh : String)
    (hsh : shared_snapshot.lookup P = some sh) (hbh : base_snapshot.lookup P = some bh) :
    (sh = bh →
      integrateModified task_id base_snapshot shared_snapshot task_ws resolver
          (shared, counts) P =
        (setKV shared P ((task_ws.lookup P).getD ""),
         { counts with modified := counts.modified + 1 }) ∧
      (setKV shared P ((task_ws.lookup P).getD "")).lookup P =
        some ((task_ws.lookup P).getD "")) ∧
    (sh ≠ bh →
      (resolver = none ∨ ∀ f, resolver = some f → (f P).strategy ≠ "merged") →
      integrateModified task_id base_snapshot shared_snapshot task_ws resolver
          (shared, counts) P =
        (setKV shared (versionedName P task_id) ((task_ws.lookup P).getD ""),
         { counts with conflict := counts.conflict + 1 }) ∧
      (setKV shared (versionedName P task_id) ((task_ws.lookup P).getD "")).lookup P =
        shared.lookup P ∧
      (setKV shared (versionedName P task_id) ((task_ws.lookup P).getD "")).lookup
          (versionedName P task_id) = some ((task_ws.lookup P).getD "")) := by
  constructor
  · intro heq
    subst heq
    have hcond : (!(base_snapshot.lookup P).isSome ||
        !(shared_snapshot.lookup P == base_snapshot.lookup P)) = false := by
      rw [hsh, hbh]
      simp
    have hsome : (shared_snapshot.lookup P).isSome = true := by rw [hsh]; rfl
    refine ⟨?_, lookup_setKV_self shared P _⟩
    unfold integrateModified
    rw [hcond, hsome]
    simp
  · intro hne hres
    have hcond : (!(base_snapshot.lookup P).isSome ||
        !(shared_snapshot.lookup P == base_snapshot.lookup P)) = true := by
      rw [hsh, hbh]
      simp
      intro hc
      exact absurd hc hne
    have hsome : (shared_snapshot.lookup P).isSome = true := by rw [hsh]; rfl
    refine ⟨?_, ?_, ?_⟩
    · unfold integrateModified
      rw [hcond, hsome]
      rcases hres with hnone | hstrat
      · rw [hnone]
        simp
      · cases hr : resolver with
        | none => simp
        | some f =>
            have hb : ((f P).strategy == "merged") = false := by
              simpa using hstrat f hr
            simp [hb]
    · exact lookup_setKV_other shared (versionedName P task_id) _ P
        (fun hc => versionedName_ne P task_id hc.symm)
    · exact lookup_setKV_self shared (versionedName P task_id) _

/-- Witness for the C2 theorem: a concrete conflicting integration where
the shared file was concurrently changed and the resolver answers with
strategy "version". -/
theorem integrate_modified_cases_witness :
    integrateModified "t9" [("conflict.py", "h0")] [("conflict.py", "h1")]
        [("conflict.py", "task2")]
        (some (fun _ => { strategy := "version", message := "give up" }))
        ([("conflict.py", "task1")], { new := 0, modified := 0, conflict := 0, deleted := 0 })
        "conflict.py" =
      ([("conflict.py", "task1"), ("conflict_t9.py", "task2")],
       { new := 0, modified := 0, conflict := 1, deleted := 0 }) ∧
    ([("conflict.py", "task1"), ("conflict_t9.py", "task2")] : FileTree).lookup "conflict.py" =
      some "task1" ∧
    ([("conflict.py", "task1"), ("conflict_t9.py", "task2")] : FileTree).lookup "conflict_t9.py" =
      some "task2" := by
  have h := (integrate_modified_cases "t9" [("conflict.py", "h0")] [("conflict.py", "h1")]
    [("conflict.py", "task2")]
    (some (fun _ => { strategy := "version", message := "give up" }))
    [("conflict.py", "task1")] { new := 0, modified := 0, conflict := 0, deleted := 0 }
    "conflict.py" "h1" "h0" rfl rfl).2
    (by decide)
    (Or.inr (by
      intro f hf
      injection hf with hf2
      rw [← hf2]
      decide))
  refine ⟨?_, by rfl, by rfl⟩
  rw [h.1]
  rfl

lemma mem_of_lookup_some (m : List (String × String)) (p c : String)
    (h : m.lookup p = some c) : (p, c) ∈ m := by
  induction m with
  | nil => simp [List.lookup] at h
  | cons kv rest ih =>
      obtain ⟨a, b⟩ := kv
      rw [lookup_cons_kv] at h
      by_cases hpa : (p == a) = true
      · rw [if_pos hpa] at h
        injection h with h
        have hpe : p = a := by simpa using hpa
        simp [hpe, h]
      · rw [if_neg hpa] at h
        exact List.mem_cons_of_mem _ (ih h)

lemma keysOf_createSnapshot (h : String → String) (ws : FileTree) :
    keysOf (createSnapshot h ws) = keysOf (ws.filter (fun pc => !(isExcluded pc.1))) := by
  unfold createSnapshot keysOf
  rw [List.map_map]
  rfl

lemma copyNew_counts (task_ws : FileTree) (l : List String)
    (st : FileTree × IntegrationCounts) :
    (l.foldl (copyNewStep task_ws) st).2 =
      { st.2 with new := st.2.new + l.length } := by
  induction l generalizing st with
  | nil => simp
  | cons p l ih =>
      rw [List.foldl_cons, ih]
      simp [copyNewStep]
      omega

lemma copyNew_lookup_not_mem (task_ws : FileTree) (l : List String)
    (st : FileTree × IntegrationCounts) (q : String) (hq : q ∉ l) :
    ((l.foldl (copyNewStep task_ws) st).1).lookup q = st.1.lookup q := by
  induction l generalizing st with
  | nil => simp
  | cons p l ih =>
      rw [List.foldl_cons]
      have hqp : q ≠ p := fun hc => hq (by simp [hc])
      have hql : q ∉ l := fun hc => hq (by simp [hc])
      rw [ih _ hql]
      exact lookup_setKV_other st.1 p _ q hqp

lemma copyNew_lookup_mem (task_ws : FileTree) (l : List String)
    (st : FileTree × IntegrationCounts) (q : String) (hnd : l.Nodup) (hq : q ∈ l) :
    ((l.foldl (copyNewStep task_ws) st).1).lookup q =
      some ((task_ws.lookup q).getD "") := by
  induction l generalizing st with
  | nil => simp at hq
  | cons p l ih =>
      rw [List.foldl_cons]
      rcases List.mem_cons.mp hq with hqp | hql
      · subst hqp
        have hnm : q ∉ l := (List.nodup_cons.mp hnd).1
        rw [copyNew_lookup_not_mem task_ws l _ q hnm]
        exact lookup_setKV_self st.1 q _
      · exact ih _ (List.nodup_cons.mp hnd).2 hql

/-- C10: when `integrate_task_results` runs for a task id with no stored
base snapshot, the base defaults to the empty snapshot: every
non-excluded sandbox file is classified new and copied to the shared
tree, the `new` counter equals the number of non-excluded files, and the
`modified`, `conflict` and `deleted` counters are zero. -/
theorem integrate_unknown_task_base (h : String → String) (task_id : String)
    (task_snapshots : List (String × Snapshot)) (shared task_ws : FileTree)
    (resolver : Option (String → ConflictResolution))
    (hnone : task_snapshots.lookup task_id = none)
    (hnd : (keysOf task_ws).Nodup) :
    (detect_changes ((task_snapshots.lookup task_id).getD [])
        (createSnapshot h task_ws)).new = keysOf (createSnapshot h task_ws) ∧
    (detect_changes ((task_snapshots.lookup task_id).getD [])
        (createSnapshot h task_ws)).modified = [] ∧
    (detect_changes ((task_snapshots.lookup task_id).getD [])
        (createSnapshot h task_ws)).deleted = [] ∧
    (integrate_task_results h task_id task_snapshots shared task_ws resolver).2 =
      { new := (createSnapshot h task_ws).length, modified := 0, conflict := 0,
        deleted := 0 } ∧
    (∀ p c, task_ws.lookup p = some c → isExcluded p = false →
      ((integrate_task_results h task_id task_snapshots shared task_ws resolver).1).lookup p =
        some c) := by
  rw [hnone]
  have hkeys_nd : (keysOf (createSnapshot h task_ws)).Nodup := by
    rw [keysOf_createSnapshot]
    exact List.Nodup.sublist (List.Sublist.map Prod.fst (List.filter_sublist task_ws)) hnd
  have hnew : (detect_changes ([] : Snapshot) (createSnapshot h task_ws)).new =
      keysOf (createSnapshot h task_ws) := by
    unfold detect_changes
    apply List.filter_eq_self.mpr
    intro p _
    simp [keysOf]
  have hmod : (detect_changes ([] : Snapshot) (createSnapshot h task_ws)).modified = [] := by
    unfold detect_changes
    simp [keysOf]
  have hdel : (detect_changes ([] : Snapshot) (createSnapshot h task_ws)).deleted = [] := by
    unfold detect_changes
    simp [keysOf]
  refine ⟨hnew, hmod, hdel, ?_, ?_⟩
  · unfold integrate_task_results
    rw [hnone]
    simp only [Option.getD_none, hnew, hmod, hdel]
    rw [List.foldl_nil]
    have hcounts := copyNew_counts task_ws (keysOf (createSnapshot h task_ws))
      (shared, { new := 0, modified := 0, conflict := 0, deleted := 0 })
    rw [hcounts]
    simp [keysOf]
  · intro p c hp hexc
    have hpk : p ∈ keysOf (createSnapshot h task_ws) := by
      rw [keysOf_createSnapshot]
      have hmem : (p, c) ∈ task_ws := mem_of_lookup_some task_ws p c hp
      have : (p, c) ∈ task_ws.filter (fun pc => !(isExcluded pc.1)) := by
        rw [List.mem_filter]
        exact ⟨hmem, by simp [hexc]⟩
      exact List.mem_map.mpr ⟨(p, c), this, rfl⟩
    unfold integrate_task_results
    rw [hnone]
    simp only [Option.getD_none, hnew, hmod, hdel]
    rw [List.foldl_nil]
    show (((keysOf (createSnapshot h task_ws)).foldl (copyNewStep task_ws)
        (shared, { new := 0, modified := 0, conflict := 0, deleted := 0 })).1).lookup p =
        some c
    rw [copyNew_lookup_mem task_ws _ _ p hkeys_nd hpk, hp]
    rfl

/-- Witness for the C10 theorem at a concrete sandbox with one regular
file and one excluded file. -/
theorem integrate_unknown_task_base_witness :
    ((integrate_task_results (fun s => s) "t1" [] []
        [("main.py", "code"), (".claude/settings.json", "cfg")] none).1).lookup "main.py" =
      some "code" ∧
    (integrate_task_results (fun s => s) "t1" [] []
        [("main.py", "code"), (".claude/settings.json", "cfg")] none).2 =
      { new := 1, modified := 0, conflict := 0, deleted := 0 } := by
  have h := integrate_unknown_task_base (fun s => s) "t1" [] []
    [("main.py", "code"), (".claude/settings.json", "cfg")] none rfl (by decide)
  constructor
  · exact h.2.2.2.2 "main.py" "code" rfl (by decide)
  · rw [h.2.2.2.1]
    rfl

/-! Task runner model (`task_executor.py`).

`ExecutionResult` keeps the fields the claims consult; the wall-clock
fields `execution_time` and `timestamp` are real-time data never read by
any control flow and are omitted. -/

/-- Outcome record of one task execution (`ExecutionResult` dataclass). -/
structure ExecutionResult where
  task_id : String
  success : Bool
  stdout : String := ""
  stderr : String := ""
  error : String := ""
  artifacts : List String := []
  workspace : Option String := none
deriving DecidableEq, Repr

/-- What the environment does during one `TaskExecutor.execute` call:
an exception before or while spawning, a timeout, or a finished
subprocess with its exit code and captured streams. -/
inductive RunOutcome where
  | exc (msg : String)
  | timeout
  | finished (returncode : Int) (stdout stderr : String)
deriving DecidableEq, Repr

/-- Embedding of `TaskExecutor.execute`: the missing-manager `ValueError` is caught by
the blanket `except` and recorded; a timeout kills the subprocess and
returns a failure; a finished subprocess succeeds exactly on exit code
zero.  `artifacts` abstracts the files collected from the sandbox. -/
def executeModel (task_id : String) (timeoutSecs : Nat) (hasManager : Bool)
    (outcome : RunOutcome) (artifacts : List String) (workspace : String) :
    ExecutionResult :=
  if !hasManager then
    { task_id := task_id, success := false,
      error := "ArtifactManager is required for task execution" }
  else
    match outcome with
    | .exc m => { task_id := task_id, success := false, error := m }
    | .timeout =>
        { task_id := task_id, success := false,
          error := "Task timeout after " ++ toString timeoutSecs ++ "s",
          workspace := some workspace }
    | .finished rc out err =>
        if rc == 0 then
          { task_id := task_id, success := true, stdout := out, stderr := err,
            artifacts := artifacts, workspace := some workspace }
        else
          { task_id := task_id, success := false, stdout := out, stderr := err,
            error := "Process exited with code " ++ toString rc,
            artifacts := artifacts, workspace := some workspace }

/-- Embedding of `TaskExecutor.execute_batch`: `asyncio.gather` with
`return_exceptions=True` yields one outcome per task in order; each
exception is converted into a failed `ExecutionResult` carrying the task
id and the stringified error. -/
def execute_batch (tasks : List String)
    (outcomes : List (Except String ExecutionResult)) : List ExecutionResult :=
  (tasks.zip outcomes).map (fun p =>
    match p.2 with
    | .error e => { task_id := p.1, success := false, error := e }
    | .ok r => r)

/-- C8: batch execution returns exactly one result per input task and
converts every exception into a failed result carrying the error, and
each failure mode inside a single execution is captured as
`success = false` with the error recorded, never propagated. -/
theorem execute_batch_spec (tasks : List String)
    (outcomes : List (Except String ExecutionResult))
    (hlen : outcomes.length = tasks.length) :
    (execute_batch tasks outcomes).length = tasks.length ∧
    (∀ (i : Nat) (t : String) (e : String),
      tasks[i]? = some t → outcomes[i]? = some (Except.error e) →
      (execute_batch tasks outcomes)[i]? =
        some ({ task_id := t, success := false, error := e } : ExecutionResult)) ∧
    (∀ (i : Nat) (t : String) (r : ExecutionResult),
      tasks[i]? = some t → outcomes[i]? = some (Except.ok r) →
      (execute_batch tasks outcomes)[i]? = some r) ∧
    (∀ tid ts arts ws m,
      (executeModel tid ts true (.exc m) arts ws).success = false ∧
      (executeModel tid ts true (.exc m) arts ws).error = m) ∧
    (∀ tid ts arts ws,
      (executeModel tid ts true .timeout arts ws).success = false ∧
      (executeModel tid ts true .timeout arts ws).error =
        "Task timeout after " ++ toString ts ++ "s") ∧
    (∀ tid ts arts ws rc out err, rc ≠ 0 →
      (executeModel tid ts true (.finished rc out err) arts ws).success = false ∧
      (executeModel tid ts true (.finished rc out err) arts ws).error =
        "Process exited with code " ++ toString rc) := by
  refine ⟨?_, ?_, ?_, ?_, ?_, ?_⟩
  · unfold execute_batch
    rw [List.length_map, List.length_zip, hlen]
    exact Nat.min_self _
  · intro i t e ht ho
    unfold execute_batch
    rw [List.getElem?_map]
    have hz : (tasks.zip outcomes)[i]? = some (t, Except.error e) :=
      List.getElem?_zip_eq_some.mpr ⟨ht, ho⟩
    rw [hz]
    rfl
  · intro i t r ht ho
    unfold execute_batch
    rw [List.getElem?_map]
    have hz : (tasks.zip outcomes)[i]? = some (t, Except.ok r) :=
      List.getElem?_zip_eq_some.mpr ⟨ht, ho⟩
    rw [hz]
    rfl
  · intro tid ts arts ws m
    exact ⟨rfl, rfl⟩
  · intro tid ts arts ws
    exact ⟨rfl, rfl⟩
  · intro tid ts arts ws rc out err hrc
    have hb : (rc == 0) = false := by simpa using hrc
    constructor <;> simp [executeModel, hb]

/-- Witness for the C8 theorem: a concrete two-task batch where the
first task succeeded and the second raised. -/
theorem execute_batch_spec_witness :
    (execute_batch ["t1", "t2"]
        [.ok { task_id := "t1", success := true }, .error "boom"]).length = 2 ∧
    (execute_batch ["t1", "t2"]
        [.ok { task_id := "t1", success := true }, .error "boom"])[1]? =
      some { task_id := "t2", success := false, error := "boom" } := by
  have h := execute_batch_spec ["t1", "t2"]
    [.ok { task_id := "t1", success := true }, .error "boom"] rfl
  exact ⟨h.1, h.2.1 1 "t2" "boom" rfl rfl⟩

/-! Conflict resolver model (`conflict_resolver.py`).

Both resolvers build the merge prompt before entering their `try` block;
the prompt construction reads the input files, so a failing read is
modelled as an `Except.error` that escapes the function, while every
failure after the `try` begins is converted into a "version"
resolution.  The merge sub-agent is abstracted by the resulting sandbox
contents and the executor outcome. -/

/-- Embedding of `ConflictResolver._check_merge_result`: classify the merge sandbox
after a successful merge task. -/
def check_merge_result (merge_task_dir : String) (sandbox : FileTree)
    (filename : String) : ConflictResolution :=
  match sandbox.lookup "CANNOT_MERGE.txt" with
  | some reason =>
      { strategy := "version", message := "Cannot merge: " ++ reason }
  | none =>
      if (sandbox.lookup filename).isSome then
        { strategy := "merged", merged_file_path := some (merge_task_dir ++ "/" ++ filename),
          message := "Successfully merged by Claude Code" }
      else
        { strategy := "version", message := "Merge completed but no output file found" }

/-- Embedding of `ConflictResolver.resolve_conflict`: the reads of the two input files
happen in `_create_merge_prompt`, before the `try` block, so their
failures propagate; the executor call and result check are inside the
`try`, so their failures yield a "version" resolution. -/
def resolve_conflict (existingName : String)
    (existingRead newRead : Except String String)
    (execOutcome : Except String ExecutionResult)
    (mergeTaskDir : String) (mergeSandbox : FileTree) :
    Except String ConflictResolution :=
  match existingRead with
  | .error e => .error e
  | .ok _ =>
    match newRead with
    | .error e => .error e
    | .ok _ =>
      match execOutcome with
      | .error e => .ok { strategy := "version", message := "Merge exception: " ++ e }
      | .ok r =>
          if r.success then
            .ok (check_merge_result mergeTaskDir mergeSandbox existingName)
          else
            .ok { strategy := "version", message := "Merge task failed: " ++ r.error }

/-- Embedding of `ConflictResolver.resolve_three_way_conflict`: same structure; the
base file read is skipped when no base file exists. -/
def resolve_three_way_conflict (sharedName : String)
    (baseRead : Option (Except String String))
    (sharedRead taskRead : Except String String)
    (execOutcome : Except String ExecutionResult)
    (mergeTaskDir : String) (mergeSandbox : FileTree) :
    Except String ConflictResolution :=
  match (match baseRead with | none => Except.ok "" | some r => r) with
  | .error e => .error e
  | .ok _ =>
    match sharedRead with
    | .error e => .error e
    | .ok _ =>
      match taskRead with
      | .error e => .error e
      | .ok _ =>
        match execOutcome with
        | .error e =>
            .ok { strategy := "version", message := "3-way merge exception: " ++ e }
        | .ok r =>
            if r.success then
              .ok (check_merge_result mergeTaskDir mergeSandbox sharedName)
            else
              .ok { strategy := "version",
                    message := "3-way merge task failed: " ++ r.error }

/-- C4 (code bug): an unreadable input file makes both resolvers raise to
their caller, because the prompt construction reads the files outside the
`try` block; an exception from the merge execution itself is converted to
a "version" resolution as the spec demands. -/
theorem resolve_conflict_read_error_raises :
    resolve_conflict "conflict.py" (.error "UnicodeDecodeError") (.ok "new content")
        (.ok { task_id := "m", success := true }) ".merge_tasks/m" [] =
      .error "UnicodeDecodeError" ∧
    resolve_three_way_conflict "conflict.py" none (.error "UnicodeDecodeError")
        (.ok "task content") (.ok { task_id := "m", success := true })
        ".merge_tasks/m" [] =
      .error "UnicodeDecodeError" ∧
    resolve_conflict "conflict.py" (.ok "existing") (.ok "new") (.error "boom")
        ".merge_tasks/m" [] =
      .ok { strategy := "version", merged_file_path := none,
            message := "Merge exception: boom" } ∧
    resolve_three_way_conflict "conflict.py" none (.ok "shared") (.ok "task")
        (.error "boom") ".merge_tasks/m" [] =
      .ok { strategy := "version", merged_file_path := none,
            message := "3-way merge exception: boom" } :=
  ⟨rfl, rfl, rfl, rfl⟩

/-- C5: the merge outcome classification — `CANNOT_MERGE.txt` present
gives strategy "version" with the file's contents carried in the message
(prefixed "Cannot merge: "); otherwise a file with the target filename
gives strategy "merged" pointing at that sandbox file; otherwise strategy
"version" with the no-output message. -/
theorem check_merge_result_spec (dir : String) (sandbox : FileTree) (filename : String) :
    (∀ reason, sandbox.lookup "CANNOT_MERGE.txt" = some reason →
      check_merge_result dir sandbox filename =
        { strategy := "version", merged_file_path := none,
          message := "Cannot merge: " ++ reason }) ∧
    (sandbox.lookup "CANNOT_MERGE.txt" = none →
      ∀ c, sandbox.lookup filename = some c →
        check_merge_result dir sandbox filename =
          { strategy := "merged", merged_file_path := some (dir ++ "/" ++ filename),
            message := "Successfully merged by Claude Code" }) ∧
    (sandbox.lookup "CANNOT_MERGE.txt" = none → sandbox.lookup filename = none →
      check_merge_result dir sandbox filename =
        { strategy := "version", merged_file_path := none,
          message := "Merge completed but no output file found" }) := by
  refine ⟨?_, ?_, ?_⟩
  · intro reason hr
    unfold check_merge_result
    rw [hr]
  · intro hn c hc
    unfold check_merge_result
    rw [hn, hc]
    rfl
  · intro hn hc
    unfold check_merge_result
    rw [hn, hc]
    rfl

/-- Witness for the C5 theorem at three concrete merge sandboxes. -/
theorem check_merge_result_spec_witness :
    check_merge_result "d" [("CANNOT_MERGE.txt", "why")] "a.py" =
      { strategy := "version", merged_file_path := none,
        message := "Cannot merge: why" } ∧
    check_merge_result "d" [("a.py", "code")] "a.py" =
      { strategy := "merged", merged_file_path := some "d/a.py",
        message := "Successfully merged by Claude Code" } ∧
    check_merge_result "d" [] "a.py" =
      { strategy := "version", merged_file_path := none,
        message := "Merge completed but no output file found" } :=
  ⟨(check_merge_result_spec "d" [("CANNOT_MERGE.txt", "why")] "a.py").1 "why" rfl,
   (check_merge_result_spec "d" [("a.py", "code")] "a.py").2.1 rfl "code" rfl,
   (check_merge_result_spec "d" [] "a.py").2.2 rfl rfl⟩

/-! Final-integration model (`Orchestrator._integrate_artifacts` and
`ArtifactManager.integrate_artifact`).

The workspace filesystem is a tree keyed by path relative to the
workspace root; the integrated directory is its own tree keyed by file
name. -/

/-- The sandbox directory name chosen by
`ArtifactManager.prepare_task_workspace`: `task_<taskId>`. -/
def prepare_task_workspace_path (task_id : String) : String :=
  "task_" ++ task_id

/-- Embedding of `ArtifactManager.integrate_artifact` (single-file path): copy a file
named `sourceName` with the given content into the destination tree,
delegating to the resolver or versioning on a name collision.  Returns
the actually saved name and the updated tree. -/
def integrate_artifact (dest : FileTree) (sourceName content task_id : String)
    (resolver : Option (String → ConflictResolution)) : String × FileTree :=
  if (dest.lookup sourceName).isSome then
    let versioned := (stemAndSuffix sourceName).1 ++ "_" ++ task_id ++
      (stemAndSuffix sourceName).2
    match resolver with
    | some resolve =>
        let resolution := resolve sourceName
        if resolution.strategy == "merged" && resolution.merged_file_path.isSome then
          (sourceName, setKV dest sourceName (resolution.merged_file_path.getD ""))
        else
          (versioned, setKV dest versioned content)
    | none => (versioned, setKV dest versioned content)
  else
    (sourceName, setKV dest sourceName content)

/-- The README body written by `Orchestrator._integrate_artifacts`
(`now` stands for the formatted generation date). -/
def readmeText (copied versioned : List String) (now : String) : String :=
  "# Integrated Project Artifacts\n\nThis directory contains all artifacts " ++
    "generated by the AI-driven project execution.\n\n## Generated Files:\n" ++
  String.join (((copied.dedup).mergeSort (fun a b => a ≤ b)).map
    (fun f => "- " ++ f ++ "\n")) ++
  (if versioned.isEmpty then "" else
    "\n## File Conflicts (Versioned):\n" ++
      String.join (versioned.map (fun c => "- " ++ c ++ "\n"))) ++
  "\n## Generation Date: " ++ now ++ "\n"

/-- Embedding of `Orchestrator._integrate_artifacts`: for each successful result with
artifacts, look the artifact up under `<workspace>/<taskId>/<artifact>`
(the bare task id, exactly as the source does), skip `.claude` paths and
missing files, integrate the rest into the integrated tree, and write a
README when at least one file was copied.  Returns the copied names, the
versioned-conflict records and the integrated directory tree. -/
def integrate_artifacts (fs : FileTree) (results : List ExecutionResult)
    (resolver : Option (String → ConflictResolution)) (now : String) :
    List String × List String × FileTree :=
  let step := fun (acc : List String × List String × FileTree) (r : ExecutionResult) =>
    if r.success && !r.artifacts.isEmpty then
      r.artifacts.foldl (fun acc2 artifact =>
        if strContains artifact ".claude" then acc2
        else
          match fs.lookup (r.task_id ++ "/" ++ artifact) with
          | none => acc2
          | some content =>
              let sourceName := pathFinalComp artifact
              let saved := integrate_artifact acc2.2.2 sourceName content r.task_id resolver
              let versioned2 := if saved.1 ≠ sourceName then
                  acc2.2.1 ++ [sourceName ++ " -> " ++ saved.1]
                else acc2.2.1
              (acc2.1 ++ [saved.1], versioned2, saved.2)) acc
    else acc
  let acc := results.foldl step ([], [], [])
  if !acc.1.isEmpty then
    (acc.1, acc.2.1, setKV acc.2.2 "README.md" (readmeText acc.1 acc.2.1 now))
  else acc

/-- The workspace state of the C6 failing input: one successful task
`t1` whose sandbox `task_t1/` holds one artifact. -/
def c6fs : FileTree := [("task_t1/main.py", "code")]

/-- The execution results of the C6 failing input. -/
def c6results : List ExecutionResult :=
  [{ task_id := "t1", success := true, artifacts := ["main.py"],
     workspace := some "task_t1" }]

/-- C6 (code bug): the artifact produced by the successful task exists in
the sandbox created by `prepare_task_workspace` (`task_t1/main.py`), but
the final integration searches `<workspace>/<taskId>` — the bare task id
— so its existence check fails: nothing is copied into `integrated/` and
no README is written, although a task completed with artifacts. -/
theorem integrate_artifacts_path_bug :
    c6fs.lookup (prepare_task_workspace_path "t1" ++ "/" ++ "main.py") = some "code" ∧
    c6fs.lookup ("t1" ++ "/" ++ "main.py") = none ∧
    integrate_artifacts c6fs c6results none "2025-01-01 00:00:00" = ([], [], []) :=
  ⟨rfl, rfl, rfl⟩

/-! WBS loading and load-time cycle validation
(`TaskGraphEngine._load_wbs` and `_validate_dependencies`). -/

/-- One task entry of a WBS phase. -/
structure WbsTask where
  id : String
  name : String
  dependencies : List String := []
deriving Repr

/-- One phase of a WBS. -/
structure WbsPhase where
  id : String
  depends_on_phase : Option String := none
  tasks : List WbsTask := []
deriving Repr

/-- A parsed WBS document (the `phases` list; other fields are ignored by
the loader). -/
structure Wbs where
  phases : List WbsPhase := []
deriving Repr

/-- Python dict insertion for the task dictionary: replace the entry with
the same id in place, else append. -/
def insertTask : List Task → Task → List Task
  | [], t => [t]
  | t0 :: rest, t => if t0.id == t.id then t :: rest else t0 :: insertTask rest t

/-- Embedding of `TaskGraphEngine._load_wbs`: record each phase's
`depends_on_phase` edge and insert each task with PENDING status and the
owning phase id. -/
def load_wbs (w : Wbs) : List Task × List (String × String) :=
  w.phases.foldl (fun acc phase =>
    let pds := match phase.depends_on_phase with
      | some d => setKV acc.2 phase.id d
      | none => acc.2
    let ts := phase.tasks.foldl (fun tl td =>
      insertTask tl { id := td.id, name := td.name, dependencies := td.dependencies,
                      status := .pending, phase_id := some phase.id }) acc.1
    (ts, pds)) ([], [])

/-- The dependency list of a task id; a missing id has no out-edges
(`self.tasks.get(task_id)` followed by the truthiness test). -/
def taskDeps (tasks : List Task) (i : String) : List String :=
  match tasks.find? (fun t => t.id == i) with
  | some t => t.dependencies
  | none => []

/-- The loaded task ids, in dictionary order. -/
def taskIds (tasks : List Task) : List String := tasks.map Task.id

/-- Edge relation of the task-dependency graph: `a` depends on `b`. -/
def DepAdj (tasks : List Task) (a b : String) : Prop := b ∈ taskDeps tasks a

/-- Existence of a dependency cycle among the loaded tasks. -/
def Cyclic (tasks : List Task) : Prop :=
  ∃ x, Relation.TransGen (DepAdj tasks) x x

/-- Every node the depth-first search can ever visit: the task ids plus
every dependency id mentioned anywhere. -/
def allNodes (tasks : List Task) : Finset String :=
  (taskIds tasks ++ (tasks.map Task.dependencies).flatten).toFinset

/-- The recursive `has_cycle` helper of `_validate_dependencies`,
threaded functionally: the visited set is returned, the recursion stack
is passed down, and the fuel bounds the recursion depth (it never runs
out when started with more fuel than there are unvisited nodes). -/
def hasCycle (tasks : List Task) :
    Nat → String → List String → List String → Bool × List String
  | 0, _, v, _ => (false, v)
  | fuel + 1, t, v, r =>
      (taskDeps tasks t).foldl
        (fun acc d =>
          if acc.1 then acc
          else if acc.2.contains d then
            if (t :: r).contains d then (true, acc.2) else acc
          else hasCycle tasks fuel d acc.2 (t :: r))
        (false, t :: v)

/-- The outer loop of `_validate_dependencies`: run the search from every
task id not yet visited and report the root from which a cycle was
found. -/
def validateLoop (tasks : List Task) (fuel : Nat) :
    List String → List String → Option String
  | [], _ => none
  | t :: ts, v =>
      if v.contains t then validateLoop tasks fuel ts v
      else
        match hasCycle tasks fuel t v [] with
        | (true, _) => some t
        | (false, v2) => validateLoop tasks fuel ts v2

/-- Embedding of `TaskGraphEngine._validate_dependencies`. -/
def validate_dependencies (tasks : List Task) : Except String Unit :=
  match validateLoop tasks ((allNodes tasks).card + 1) (taskIds tasks) [] with
  | some t => .error ("Circular dependency detected involving task " ++ t)
  | none => .ok ()

/-- Embedding of `TaskGraphEngine.__init__`: load the WBS, then validate; a cycle
error aborts construction. -/
def wbsLoad (w : Wbs) : Except String TaskGraphEngine :=
  match validate_dependencies (load_wbs w).1 with
  | .error e => .error e
  | .ok _ => .ok { tasks := (load_wbs w).1, phase_dependencies := (load_wbs w).2 }

lemma depAdj_fst_mem_taskIds {tasks : List Task} {a b : String}
    (h : DepAdj tasks a b) : a ∈ taskIds tasks := by
  unfold DepAdj taskDeps at h
  cases hf : tasks.find? (fun t => t.id == a) with
  | none => rw [hf] at h; simp at h
  | some t =>
      have hmem := List.mem_of_find?_eq_some hf
      have hid : t.id = a := by
        have := List.find?_some hf
        simpa using this
      exact List.mem_map.mpr ⟨t, hmem, hid⟩

lemma depAdj_fst_mem_allNodes {tasks : List Task} {a b : String}
    (h : DepAdj tasks a b) : a ∈ allNodes tasks := by
  unfold allNodes
  rw [List.mem_toFinset, List.mem_append]
  exact Or.inl (depAdj_fst_mem_taskIds h)

lemma depAdj_snd_mem_allNodes {tasks : List Task} {a b : String}
    (h : DepAdj tasks a b) : b ∈ allNodes tasks := by
  unfold DepAdj taskDeps at h
  cases hf : tasks.find? (fun t => t.id == a) with
  | none => rw [hf] at h; simp at h
  | some t =>
      rw [hf] at h
      have hmem := List.mem_of_find?_eq_some hf
      unfold allNodes
      rw [List.mem_toFinset, List.mem_append]
      right
      rw [List.mem_flatten]
      exact ⟨t.dependencies, List.mem_map.mpr ⟨t, hmem, rfl⟩, h⟩

lemma taskIds_mem_allNodes {tasks : List Task} {a : String}
    (h : a ∈ taskIds tasks) : a ∈ allNodes tasks := by
  unfold allNodes
  rw [List.mem_toFinset, List.mem_append]
  exact Or.inl h

lemma stack_reflTransGen (tasks : List Task) :
    ∀ (l : List String) (hd : String),
      List.Chain' (fun a b => DepAdj tasks b a) (hd :: l) →
      ∀ x ∈ hd :: l, Relation.ReflTransGen (DepAdj tasks) x hd := by
  intro l
  induction l with
  | nil =>
      intro hd _ x hx
      rw [List.mem_singleton] at hx
      subst hx
      exact Relation.ReflTransGen.refl
  | cons h2 l2 ih =>
      intro hd hchain x hx
      rw [List.chain'_cons] at hchain
      rcases List.mem_cons.mp hx with hxh | hxt
      · subst hxh
        exact Relation.ReflTransGen.refl
      · exact Relation.ReflTransGen.tail (ih h2 hchain.2 x hxt) hchain.1

lemma hasCycle_foldl_true_stays (tasks : List Task) (fuel : Nat) (t : String)
    (r : List String) :
    ∀ (ds : List String) (acc : Bool × List String), acc.1 = true →
      ds.foldl
        (fun acc d =>
          if acc.1 then acc
          else if acc.2.contains d then
            if (t :: r).contains d then (true, acc.2) else acc
          else hasCycle tasks fuel d acc.2 (t :: r)) acc = acc := by
  intro ds
  induction ds with
  | nil => intro acc _; rfl
  | cons d ds ih =>
      intro acc hacc
      rw [List.foldl_cons]
      have hstep : (if acc.1 = true then acc
          else if acc.2.contains d then
            if (t :: r).contains d then (true, acc.2) else acc
          else hasCycle tasks fuel d acc.2 (t :: r)) = acc := if_pos hacc
      rw [hstep]
      exact ih acc hacc

lemma hasCycle_true_cyclic (tasks : List Task) :
    ∀ (fuel : Nat) (t : String) (v r : List String),
      List.Chain' (fun a b => DepAdj tasks b a) (t :: r) →
      (hasCycle tasks fuel t v r).1 = true →
      Cyclic tasks := by
  intro fuel
  induction fuel with
  | zero =>
      intro t v r _ h
      simp [hasCycle] at h
  | succ fuel ih =>
      intro t v r hchain htrue
      unfold hasCycle at htrue
      have inner : ∀ (ds : List String), (∀ d ∈ ds, DepAdj tasks t d) →
          ∀ acc : Bool × List String,
          (ds.foldl
            (fun acc d =>
              if acc.1 then acc
              else if acc.2.contains d then
                if (t :: r).contains d then (true, acc.2) else acc
              else hasCycle tasks fuel d acc.2 (t :: r)) acc).1 = true →
          acc.1 = true ∨ Cyclic tasks := by
        intro ds
        induction ds with
        | nil =>
            intro _ acc h
            exact Or.inl h
        | cons d ds ihds =>
            intro hsub acc hfold
            rw [List.foldl_cons] at hfold
            by_cases hacc : acc.1 = true
            · exact Or.inl hacc
            · rw [if_neg hacc] at hfold
              have hd_adj : DepAdj tasks t d := hsub d (by simp)
              by_cases hin : acc.2.contains d = true
              · rw [if_pos hin] at hfold
                by_cases hrec : (t :: r).contains d = true
                · right
                  have hmem : d ∈ t :: r := by
                    simpa [List.elem_iff] using hrec
                  have hrt : Relation.ReflTransGen (DepAdj tasks) d t :=
                    stack_reflTransGen tasks r t hchain d hmem
                  exact ⟨d, Relation.TransGen.tail' hrt hd_adj⟩
                · rw [if_neg hrec] at hfold
                  rcases ihds (fun x hx => hsub x (by simp [hx])) acc hfold with hc | hc
                  · exact absurd hc hacc
                  · exact Or.inr hc
              · rw [if_neg hin] at hfold
                cases hres : hasCycle tasks fuel d acc.2 (t :: r) with
                | mk b v2 =>
                    rw [hres] at hfold
                    by_cases hb : b = true
                    · right
                      apply ih d acc.2 (t :: r)
                      · rw [List.chain'_cons]
                        exact ⟨hd_adj, hchain⟩
                      · rw [hres, hb]
                    · have hbf : b = false := by
                        cases b
                        · rfl
                        · exact absurd rfl hb
                      subst hbf
                      rcases ihds (fun x hx => hsub x (by simp [hx])) (false, v2) hfold with
                        hc | hc
                      · simp at hc
                      · exact Or.inr hc
      rcases inner (taskDeps tasks t) (fun d hd => hd) (false, t :: v) htrue with hc | hc
      · simp at hc
      · exact hc

lemma validateLoop_some_cyclic (tasks : List Task) (fuel : Nat) :
    ∀ (roots : List String) (v : List String) (t : String),
      validateLoop tasks fuel roots v = some t →
      t ∈ roots ∧ Cyclic tasks := by
  intro roots
  induction roots with
  | nil =>
      intro v t h
      simp [validateLoop] at h
  | cons t0 ts ih =>
      intro v t h
      unfold validateLoop at h
      by_cases hv : v.contains t0 = true
      · rw [if_pos hv] at h
        obtain ⟨hmem, hcyc⟩ := ih v t h
        exact ⟨by simp [hmem], hcyc⟩
      · rw [if_neg hv] at h
        cases hres : hasCycle tasks fuel t0 v [] with
        | mk b v2 =>
            rw [hres] at h
            cases b with
            | true =>
                have ht : t = t0 := by
                  simp at h
                  exact h.symm
                subst ht
                refine ⟨by simp, ?_⟩
                apply hasCycle_true_cyclic tasks fuel t v []
                · exact List.chain'_singleton t
                · rw [hres]
            | false =>
                obtain ⟨hmem, hcyc⟩ := ih v2 t h
                exact ⟨by simp [hmem], hcyc⟩

/-- Membership in the "finished" region of the search: visited but not on
the recursion stack. -/
def Dmem (v r : List String) (x : String) : Prop := x ∈ v ∧ x ∉ r

/-- The finished region is closed under dependency edges. -/
def ClosedD (tasks : List Task) (v r : List String) : Prop :=
  ∀ a, Dmem v r a → ∀ b, DepAdj tasks a b → Dmem v r b

/-- No node of the finished region lies on a dependency cycle. -/
def NoCycD (tasks : List Task) (v r : List String) : Prop :=
  ∀ a, Dmem v r a → ¬ Relation.TransGen (DepAdj tasks) a a

lemma closed_reflTransGen (tasks : List Task) (v r : List String)
    (hcl : ClosedD tasks v r) {a b : String} (ha : Dmem v r a)
    (h : Relation.ReflTransGen (DepAdj tasks) a b) : Dmem v r b := by
  induction h with
  | refl => exact ha
  | tail h1 h2 ih => exact hcl _ ih _ h2

lemma dmem_shift (v r : List String) (t : String) (htv : t ∉ v) (x : String) :
    Dmem (t :: v) (t :: r) x ↔ Dmem v r x := by
  unfold Dmem
  constructor
  · rintro ⟨hx, hnr⟩
    rcases List.mem_cons.mp hx with he | hm
    · exact absurd (he ▸ List.mem_cons_self t r) hnr
    · exact ⟨hm, fun hc => hnr (List.mem_cons_of_mem t hc)⟩
  · rintro ⟨hx, hnr⟩
    have hxt : x ≠ t := fun hc => htv (hc ▸ hx)
    refine ⟨List.mem_cons_of_mem t hx, ?_⟩
    intro hc
    rcases List.mem_cons.mp hc with he | hm
    · exact hxt he
    · exact hnr hm

lemma closedD_congr (tasks : List Task) {v1 r1 v2 r2 : List String}
    (h : ∀ x, Dmem v1 r1 x ↔ Dmem v2 r2 x) (hcl : ClosedD tasks v1 r1) :
    ClosedD tasks v2 r2 :=
  fun a ha b hab => (h b).mp (hcl a ((h a).mpr ha) b hab)

lemma noCycD_congr (tasks : List Task) {v1 r1 v2 r2 : List String}
    (h : ∀ x, Dmem v1 r1 x ↔ Dmem v2 r2 x) (hnc : NoCycD tasks v1 r1) :
    NoCycD tasks v2 r2 :=
  fun a ha => hnc a ((h a).mpr ha)

lemma card_diff_cons_lt (tasks : List Task) (t : String) (v : List String)
    (ht : t ∈ allNodes tasks) (htv : t ∉ v) :
    ((allNodes tasks) \ (t :: v).toFinset).card <
      ((allNodes tasks) \ v.toFinset).card := by
  rw [List.toFinset_cons, Finset.sdiff_insert]
  apply Finset.card_erase_lt_of_mem
  rw [Finset.mem_sdiff]
  exact ⟨ht, by simpa using htv⟩

lemma card_diff_mono (tasks : List Task) {v v2 : List String}
    (h : ∀ x ∈ v, x ∈ v2) :
    ((allNodes tasks) \ v2.toFinset).card ≤ ((allNodes tasks) \ v.toFinset).card := by
  apply Finset.card_le_card
  apply Finset.sdiff_subset_sdiff (Finset.Subset.refl _)
  intro x hx
  rw [List.mem_toFinset] at hx ⊢
  exact h x hx

lemma hasCycle_false_inv (tasks : List Task) :
    ∀ (fuel : Nat) (t : String) (v r v' : List String),
      hasCycle tasks fuel t v r = (false, v') →
      t ∈ allNodes tasks →
      (∀ x ∈ v, x ∈ allNodes tasks) →
      t ∉ v →
      (∀ x ∈ r, x ∈ v) →
      ((allNodes tasks) \ v.toFinset).card < fuel →
      ClosedD tasks v r →
      NoCycD tasks v r →
      t ∈ v' ∧ (∀ x ∈ v, x ∈ v') ∧ (∀ x ∈ v', x ∈ allNodes tasks) ∧
        ClosedD tasks v' r ∧ NoCycD tasks v' r := by
  intro fuel
  induction fuel with
  | zero =>
      intro t v r v' _ _ _ _ _ hcard _ _
      exact absurd hcard (Nat.not_lt_zero _)
  | succ fuel ih =>
      intro t v r v' heq ht hv htv hr hcard hcl hnc
      unfold hasCycle at heq
      have inner : ∀ (ds : List String), (∀ d ∈ ds, DepAdj tasks t d) →
          ∀ (acc : Bool × List String),
          acc.1 = false →
          (∀ x ∈ t :: v, x ∈ acc.2) →
          (∀ x ∈ acc.2, x ∈ allNodes tasks) →
          ((allNodes tasks) \ acc.2.toFinset).card < fuel →
          (∀ x ∈ t :: r, x ∈ acc.2) →
          ClosedD tasks acc.2 (t :: r) →
          NoCycD tasks acc.2 (t :: r) →
          (ds.foldl
            (fun acc d =>
              if acc.1 then acc
              else if acc.2.contains d then
                if (t :: r).contains d then (true, acc.2) else acc
              else hasCycle tasks fuel d acc.2 (t :: r)) acc) = (false, v') →
          (∀ x ∈ acc.2, x ∈ v') ∧ (∀ x ∈ v', x ∈ allNodes tasks) ∧
            ClosedD tasks v' (t :: r) ∧ NoCycD tasks v' (t :: r) ∧
            (∀ d ∈ ds, d ∈ v' ∧ d ∉ t :: r) := by
        intro ds
        induction ds with
        | nil =>
            intro _ acc _ _ hall _ _ hcl2 hnc2 hfold
            rw [List.foldl_nil] at hfold
            have hv2 : acc.2 = v' := congrArg Prod.snd hfold
            subst hv2
            exact ⟨fun x hx => hx, hall, hcl2, hnc2, by simp⟩
        | cons d ds ihds =>
            intro hsub acc hacc hinit hall hcard2 hrsub hcl2 hnc2 hfold
            rw [List.foldl_cons] at hfold
            rw [if_neg (by rw [hacc]; simp)] at hfold
            have hd_adj : DepAdj tasks t d := hsub d (by simp)
            by_cases hin : acc.2.contains d = true
            · by_cases hrec : (t :: r).contains d = true
              · rw [if_pos hin, if_pos hrec] at hfold
                rw [hasCycle_foldl_true_stays tasks fuel t r ds (true, acc.2) rfl] at hfold
                exact absurd (congrArg Prod.fst hfold) (by simp)
              · rw [if_pos hin, if_neg hrec] at hfold
                obtain ⟨hsub2, hall2, hcl3, hnc3, hds⟩ :=
                  ihds (fun x hx => hsub x (by simp [hx])) acc hacc hinit hall hcard2
                    hrsub hcl2 hnc2 hfold
                refine ⟨hsub2, hall2, hcl3, hnc3, ?_⟩
                intro d2 hd2
                rcases List.mem_cons.mp hd2 with he | hm
                · subst he
                  refine ⟨hsub2 d2 (by simpa [List.elem_iff] using hin), ?_⟩
                  simpa [List.elem_iff] using hrec
                · exact hds d2 hm
            · rw [if_neg hin] at hfold
              cases hres : hasCycle tasks fuel d acc.2 (t :: r) with
              | mk b v2 =>
                  rw [hres] at hfold
                  cases b with
                  | true =>
                      rw [hasCycle_foldl_true_stays tasks fuel t r ds (true, v2) rfl]
                        at hfold
                      exact absurd (congrArg Prod.fst hfold) (by simp)
                  | false =>
                      have hdall : d ∈ allNodes tasks := depAdj_snd_mem_allNodes hd_adj
                      have hdnin : d ∉ acc.2 := by simpa [List.elem_iff] using hin
                      obtain ⟨hdv2, hmono2, hall3, hcl4, hnc4⟩ :=
                        ih d acc.2 (t :: r) v2 hres hdall hall hdnin hrsub hcard2
                          hcl2 hnc2
                      have hcard3 : ((allNodes tasks) \ v2.toFinset).card < fuel :=
                        lt_of_le_of_lt (card_diff_mono tasks hmono2) hcard2
                      obtain ⟨hsub3, hall4, hcl5, hnc5, hds⟩ :=
                        ihds (fun x hx => hsub x (by simp [hx])) (false, v2) rfl
                          (fun x hx => hmono2 x (hinit x hx)) hall3 hcard3
                          (fun x hx => hmono2 x (hrsub x hx)) hcl4 hnc4 hfold
                      refine ⟨fun x hx => hsub3 x (hmono2 x hx), hall4, hcl5, hnc5, ?_⟩
                      intro d2 hd2
                      rcases List.mem_cons.mp hd2 with he | hm
                      · subst he
                        refine ⟨hsub3 d2 hdv2, ?_⟩
                        intro hc
                        exact hdnin (hrsub d2 hc)
                      · exact hds d2 hm
      have htvd : t ∉ v := htv
      have hcard0 : ((allNodes tasks) \ (t :: v).toFinset).card < fuel := by
        have h1 := card_diff_cons_lt tasks t v ht htv
        omega
      have hshift := dmem_shift v r t htv
      obtain ⟨hsubf, hallf, hclf, hncf, hdepsf⟩ :=
        inner (taskDeps tasks t) (fun d hd => hd) (false, t :: v) rfl
          (fun x hx => hx)
          (by
            intro x hx
            rcases List.mem_cons.mp hx with he | hm
            · rw [he]; exact ht
            · exact hv x hm)
          hcard0
          (by
            intro x hx
            rcases List.mem_cons.mp hx with he | hm
            · rw [he]; exact List.mem_cons_self t v
            · exact List.mem_cons_of_mem t (hr x hm))
          (closedD_congr tasks (fun x => (hshift x).symm) hcl)
          (noCycD_congr tasks (fun x => (hshift x).symm) hnc)
          heq
      have htnr : t ∉ r := fun hc => htv (hr t hc)
      have htv' : t ∈ v' := hsubf t (List.mem_cons_self t v)
      refine ⟨htv', fun x hx => hsubf x (List.mem_cons_of_mem t hx), hallf, ?_, ?_⟩
      · intro a ha b hab
        obtain ⟨hav, hanr⟩ := ha
        by_cases hat : a = t
        · subst hat
          obtain ⟨hbv, hbnr'⟩ := hdepsf b hab
          exact ⟨hbv, fun hc => hbnr' (List.mem_cons_of_mem a hc)⟩
        · have ha' : Dmem v' (t :: r) a := by
            refine ⟨hav, ?_⟩
            intro hc
            rcases List.mem_cons.mp hc with he | hm
            · exact hat he
            · exact hanr hm
          obtain ⟨hbv, hbnr'⟩ := hclf a ha' b hab
          exact ⟨hbv, fun hc => hbnr' (List.mem_cons_of_mem t hc)⟩
      · intro a ha htg
        obtain ⟨hav, hanr⟩ := ha
        by_cases hat : a = t
        · subst hat
          obtain ⟨c, hstep, hrt⟩ := Relation.TransGen.head'_iff.mp htg
          obtain ⟨hcv, hcnr⟩ := hdepsf c hstep
          have hback : Dmem v' (a :: r) a :=
            closed_reflTransGen tasks v' (a :: r) hclf ⟨hcv, hcnr⟩ hrt
          exact hback.2 (List.mem_cons_self a r)
        · have ha' : Dmem v' (t :: r) a := by
            refine ⟨hav, ?_⟩
            intro hc
            rcases List.mem_cons.mp hc with he | hm
            · exact hat he
            · exact hanr hm
          exact hncf a ha' htg

lemma validateLoop_none_acyclic (tasks : List Task) :
    ∀ (roots v : List String),
      validateLoop tasks ((allNodes tasks).card + 1) roots v = none →
      (∀ x ∈ roots, x ∈ taskIds tasks) →
      (∀ x ∈ v, x ∈ allNodes tasks) →
      ClosedD tasks v [] → NoCycD tasks v [] →
      ∃ v', (∀ x ∈ v, x ∈ v') ∧ (∀ x ∈ roots, x ∈ v') ∧
        (∀ x ∈ v', x ∈ allNodes tasks) ∧ ClosedD tasks v' [] ∧ NoCycD tasks v' [] := by
  intro roots
  induction roots with
  | nil =>
      intro v _ _ hv hcl hnc
      exact ⟨v, fun x hx => hx, by simp, hv, hcl, hnc⟩
  | cons t ts ih =>
      intro v hnone hroots hv hcl hnc
      unfold validateLoop at hnone
      by_cases hvt : v.contains t = true
      · rw [if_pos hvt] at hnone
        obtain ⟨v', h1, h2, h3, h4, h5⟩ :=
          ih v hnone (fun x hx => hroots x (by simp [hx])) hv hcl hnc
        refine ⟨v', h1, ?_, h3, h4, h5⟩
        intro x hx
        rcases List.mem_cons.mp hx with he | hm
        · rw [he]
          exact h1 t (by simpa [List.elem_iff] using hvt)
        · exact h2 x hm
      · rw [if_neg hvt] at hnone
        cases hres : hasCycle tasks ((allNodes tasks).card + 1) t v [] with
        | mk b v2 =>
            rw [hres] at hnone
            cases b with
            | true => exact absurd hnone (by simp)
            | false =>
                have htid : t ∈ taskIds tasks := hroots t (by simp)
                have htall : t ∈ allNodes tasks := taskIds_mem_allNodes htid
                have htnv : t ∉ v := by simpa [List.elem_iff] using hvt
                have hcard : ((allNodes tasks) \ v.toFinset).card <
                    (allNodes tasks).card + 1 := by
                  have hle : ((allNodes tasks) \ v.toFinset).card ≤
                      (allNodes tasks).card :=
                    Finset.card_le_card (Finset.sdiff_subset)
                  omega
                obtain ⟨htv2, hmono, hall2, hcl2, hnc2⟩ :=
                  hasCycle_false_inv tasks _ t v [] v2 hres htall hv htnv
                    (by simp) hcard hcl hnc
                obtain ⟨v', h1, h2, h3, h4, h5⟩ :=
                  ih v2 hnone (fun x hx => hroots x (by simp [hx])) hall2 hcl2 hnc2
                refine ⟨v', fun x hx => h1 x (hmono x hx), ?_, h3, h4, h5⟩
                intro x hx
                rcases List.mem_cons.mp hx with he | hm
                · rw [he]
                  exact h1 t htv2
                · exact h2 x hm

lemma validate_ok_iff_acyclic (tasks : List Task) :
    validate_dependencies tasks = .ok () ↔ ¬ Cyclic tasks := by
  constructor
  · intro hok
    unfold validate_dependencies at hok
    cases hl : validateLoop tasks ((allNodes tasks).card + 1) (taskIds tasks) [] with
    | some t => rw [hl] at hok; exact absurd hok (by simp)
    | none =>
        obtain ⟨v', -, hroots, -, -, hnc⟩ :=
          validateLoop_none_acyclic tasks (taskIds tasks) [] hl
            (fun x hx => hx) (by simp)
            (by intro a ha; exact absurd ha.1 (List.not_mem_nil a))
            (by intro a ha; exact absurd ha.1 (List.not_mem_nil a))
        rintro ⟨a, htg⟩
        obtain ⟨c, hstep, -⟩ := Relation.TransGen.head'_iff.mp htg
        have hatid : a ∈ taskIds tasks := depAdj_fst_mem_taskIds hstep
        exact hnc a ⟨hroots a hatid, List.not_mem_nil a⟩ htg
  · intro hacyc
    unfold validate_dependencies
    cases hl : validateLoop tasks ((allNodes tasks).card + 1) (taskIds tasks) [] with
    | some t =>
        obtain ⟨-, hcyc⟩ := validateLoop_some_cyclic tasks _ (taskIds tasks) [] t hl
        exact absurd hcyc hacyc
    | none => rfl

/-- C3 (amended): a WBS loads if and only if its task-dependency graph is
acyclic — inter-phase dependency edges are never examined by the
validator — and a failing load reports a cycle error naming one of the
loaded task ids (the search root from which a cycle was reached, which
need not itself lie on the cycle). -/
theorem wbs_load_ok_iff_task_acyclic (w : Wbs) :
    ((wbsLoad w).isOk = true ↔ ¬ Cyclic (load_wbs w).1) ∧
    (∀ e, wbsLoad w = .error e →
      ∃ t, t ∈ taskIds (load_wbs w).1 ∧
        e = "Circular dependency detected involving task " ++ t) := by
  constructor
  · constructor
    · intro hok
      cases hval : validate_dependencies (load_wbs w).1 with
      | error e =>
          unfold wbsLoad at hok
          rw [hval] at hok
          simp [Except.isOk, Except.toBool] at hok
      | ok u =>
          cases u
          exact (validate_ok_iff_acyclic (load_wbs w).1).mp hval
    · intro hacyc
      have hok := (validate_ok_iff_acyclic (load_wbs w).1).mpr hacyc
      unfold wbsLoad
      rw [hok]
      rfl
  · intro e he
    unfold wbsLoad at he
    cases hval : validate_dependencies (load_wbs w).1 with
    | ok u => rw [hval] at he; cases u; exact absurd he (by simp)
    | error e2 =>
        rw [hval] at he
        injection he with he2
        unfold validate_dependencies at hval
        cases hl : validateLoop (load_wbs w).1
            ((allNodes (load_wbs w).1).card + 1) (taskIds (load_wbs w).1) [] with
        | none => rw [hl] at hval; exact absurd hval (by simp)
        | some t =>
            rw [hl] at hval
            injection hval with hv2
            obtain ⟨hmem, -⟩ :=
              validateLoop_some_cyclic (load_wbs w).1 _ (taskIds (load_wbs w).1) [] t hl
            exact ⟨t, hmem, by rw [← he2, ← hv2]⟩

/-- Adjacency of the recorded inter-phase dependency edges. -/
def PhaseAdj (pds : List (String × String)) (a b : String) : Prop :=
  pds.lookup a = some b

/-- A WBS whose two phases depend on each other while the task-dependency
graph is empty. -/
def phaseCycleWbs : Wbs :=
  { phases :=
      [{ id := "p1", depends_on_phase := some "p2",
         tasks := [{ id := "t1", name := "t1" }] },
       { id := "p2", depends_on_phase := some "p1",
         tasks := [{ id := "t2", name := "t2" }] }] }

/-- A WBS whose first task "x" depends on a two-task cycle a → b → a but
lies on no cycle itself. -/
def offCycleRootWbs : Wbs :=
  { phases :=
      [{ id := "p1",
         tasks := [{ id := "x", name := "x", dependencies := ["a"] },
                   { id := "a", name := "a", dependencies := ["b"] },
                   { id := "b", name := "b", dependencies := ["a"] }] }] }

/-- C3 counterexample, refuting both clauses of the claim as stated at
explicit inputs: (i) `phaseCycleWbs` loads successfully although the
union of task-dependency and inter-phase dependency edges contains a
cycle (the phase edges p1 → p2 → p1), so loading does not fail on every
cyclic union; and (ii) `offCycleRootWbs` fails at load with a cycle
error naming task "x", which lies on no dependency cycle (the cycle is
a → b → a; "x" is no task's dependency), so the error does not name a
task on the cycle. -/
theorem wbs_load_cycle_claim_counterexample :
    (wbsLoad phaseCycleWbs).isOk = true ∧
    Relation.TransGen (PhaseAdj (load_wbs phaseCycleWbs).2) "p1" "p1" ∧
    wbsLoad offCycleRootWbs =
      .error ("Circular dependency detected involving task " ++ "x") ∧
    ¬ Relation.TransGen (DepAdj (load_wbs offCycleRootWbs).1) "x" "x" := by
  refine ⟨rfl, Relation.TransGen.head (by rfl) (Relation.TransGen.single (by rfl)),
    rfl, ?_⟩
  intro htg
  obtain ⟨c, -, hstep⟩ := Relation.TransGen.tail'_iff.mp htg
  unfold DepAdj taskDeps at hstep
  cases hf : (load_wbs offCycleRootWbs).1.find? (fun t => t.id == c) with
  | none => rw [hf] at hstep; simp at hstep
  | some t =>
      rw [hf] at hstep
      simp only [] at hstep
      have hmem := List.mem_of_find?_eq_some hf
      have hload : (load_wbs offCycleRootWbs).1 =
          [{ id := "x", name := "x", dependencies := ["a"], status := .pending,
             phase_id := some "p1" },
           { id := "a", name := "a", dependencies := ["b"], status := .pending,
             phase_id := some "p1" },
           { id := "b", name := "b", dependencies := ["a"], status := .pending,
             phase_id := some "p1" }] := rfl
      rw [hload] at hmem
      have hnx : "x" ∉ t.dependencies := by
        rcases List.mem_cons.mp hmem with he | hm
        · rw [he]; decide
        rcases List.mem_cons.mp hm with he2 | hm2
        · rw [he2]; decide
        · rw [List.mem_singleton.mp hm2]; decide
      exact hnx hstep

/-- A WBS with a genuine task-dependency cycle. -/
def taskCycleWbs : Wbs :=
  { phases :=
      [{ id := "p1",
         tasks := [{ id := "t-a", name := "a", dependencies := ["t-b"] },
                   { id := "t-b", name := "b", dependencies := ["t-a"] }] }] }

/-- Witness for the amended C3 theorem: the phase-cyclic WBS loads (its
task graph is acyclic), and the task-cyclic WBS is rejected with the
cycle error naming its first task. -/
theorem wbs_load_ok_iff_task_acyclic_witness :
    (wbsLoad phaseCycleWbs).isOk = true ∧
    (wbsLoad taskCycleWbs).isOk = false ∧
    wbsLoad taskCycleWbs =
      .error ("Circular dependency detected involving task " ++ "t-a") := by
  refine ⟨?_, ?_, by rfl⟩
  · apply (wbs_load_ok_iff_task_acyclic phaseCycleWbs).1.mpr
    rintro ⟨a, htg⟩
    obtain ⟨c, hstep, -⟩ := Relation.TransGen.head'_iff.mp htg
    unfold DepAdj taskDeps at hstep
    cases hf : (load_wbs phaseCycleWbs).1.find? (fun t => t.id == a) with
    | none => rw [hf] at hstep; simp at hstep
    | some t =>
        rw [hf] at hstep
        have hmem := List.mem_of_find?_eq_some hf
        have hload : (load_wbs phaseCycleWbs).1 =
            [{ id := "t1", name := "t1", dependencies := [], status := .pending,
               phase_id := some "p1" },
             { id := "t2", name := "t2", dependencies := [], status := .pending,
               phase_id := some "p2" }] := rfl
        rw [hload] at hmem
        have hdeps : t.dependencies = [] := by
          rcases List.mem_cons.mp hmem with he | hm
          · rw [he]
          · rw [List.mem_singleton.mp hm]
        simp only [] at hstep
        rw [hdeps] at hstep
        simp at hstep
  · have hcyc : Cyclic (load_wbs taskCycleWbs).1 := by
      have h1 : DepAdj (load_wbs taskCycleWbs).1 "t-a" "t-b" := by
        show "t-b" ∈ taskDeps (load_wbs taskCycleWbs).1 "t-a"
        have hd : taskDeps (load_wbs taskCycleWbs).1 "t-a" = ["t-b"] := rfl
        rw [hd]
        simp
      have h2 : DepAdj (load_wbs taskCycleWbs).1 "t-b" "t-a" := by
        show "t-a" ∈ taskDeps (load_wbs taskCycleWbs).1 "t-b"
        have hd : taskDeps (load_wbs taskCycleWbs).1 "t-b" = ["t-a"] := rfl
        rw [hd]
        simp
      exact ⟨"t-a", Relation.TransGen.head h1 (Relation.TransGen.single h2)⟩
    cases hok : (wbsLoad taskCycleWbs).isOk with
    | true =>
        exact absurd hcyc ((wbs_load_ok_iff_task_acyclic taskCycleWbs).1.mp hok)
    | false => rfl

end Spec2Proof
